import Mathlib

/-!
Shallow embedding of the FNCS ns-3.24 virtual-time core: the Time class and
its global-resolution subsystem (src/core/model/nstime.h), the
FncsApplication federate bridge (src/applications/model/fncs-application.cc)
and the event-scheduler contract exercised by
src/fncs/examples/fncs-sample-simulator.cc, together with theorems settling
the specification claims about them.
-/

namespace NS3

/-- The enumeration Time::Unit, in declaration order S=0 .. FS=5, LAST=6. -/
inductive TimeUnit
  | S
  | MS
  | US
  | NS
  | PS
  | FS
deriving DecidableEq, Repr

/-- Numeric value of each Time::Unit enumerator. -/
def TimeUnit.idx : TimeUnit → ℤ
  | .S => 0
  | .MS => 1
  | .US => 2
  | .NS => 3
  | .PS => 4
  | .FS => 5

/-- Modelled from the spec: an int64x64_t 64.64 fixed-point value (64 integer
and 64 fractional bits, see the spec glossary; the int64x64 implementation is
not among the provided sources) is embedded as an unbounded integer scaled by
2 ^ 64. Multiplication truncates the extra fractional bits toward zero. -/
def i64x64mul (a b : ℤ) : ℤ := Int.tdiv (a * b) (2 ^ 64)

/-- The 64.64 fixed-point representation of one. -/
def one64 : ℤ := 2 ^ 64

/-- Integer part of a 64.64 fixed-point value, as read by
int64x64_t::GetHigh: the high 64 bits, i.e. the floor of the represented
rational. -/
def getHigh (a : ℤ) : ℤ := Int.fdiv a (2 ^ 64)

/-- Modelled from the spec: int64x64_t::Invert of a positive integer factor,
a 64.64 approximation of its reciprocal. -/
def invert64 (f : ℕ) : ℤ := ((2 ^ 128 / f : ℕ) : ℤ)

/-- One entry of the unit-conversion table (struct Time::Information):
direction flags, integer factor, and the two 64.64 multipliers. -/
structure Information where
  toMul : Bool
  fromMul : Bool
  factor : ℕ
  timeTo : ℤ
  timeFrom : ℤ
deriving DecidableEq, Repr

/-- Integer ratio between unit u and the resolution unit res:
10 ^ (3 * distance) since consecutive units are a factor 1000 apart. -/
def unitFactor (res u : TimeUnit) : ℕ := 10 ^ (3 * (res.idx - u.idx).natAbs)

/-- Modelled from the spec: the conversion descriptor for unit u while the
global resolution is res, as filled in by the static
Time::SetResolution(unit, resolution, convert) whose nstime.cc body is not
among the provided sources.  Per spec sections 3 and 4.1 each unit gets a
direction flag (multiply vs divide), the integer factor between the two
units, and 64.64 multipliers to and from the active unit: a unit coarser
than the resolution multiplies on From and divides on To, a finer unit
does the opposite through the stored reciprocal. -/
def information (res u : TimeUnit) : Information :=
  if res.idx - u.idx = 0 then
    ⟨true, true, unitFactor res u, one64, one64⟩
  else if 0 < res.idx - u.idx then
    ⟨false, true, unitFactor res u, invert64 (unitFactor res u),
      ((unitFactor res u : ℕ) : ℤ) * 2 ^ 64⟩
  else
    ⟨true, false, unitFactor res u, ((unitFactor res u : ℕ) : ℤ) * 2 ^ 64,
      invert64 (unitFactor res u)⟩

/-- Default global resolution: lazily initialized to nanoseconds. -/
def defaultResolution : TimeUnit := TimeUnit.NS

/-- Reduce an integer to the signed 64-bit two's-complement range (the gcc
behaviour of int64_t overflow, which C++ leaves undefined). -/
def wrap64 (x : ℤ) : ℤ := (x + 2 ^ 63) % 2 ^ 64 - 2 ^ 63

/-- Reinterpret an int64_t value as uint64_t (reduction modulo 2 ^ 64). -/
def toU64 (x : ℤ) : ℕ := (x % 2 ^ 64).toNat

/-- Reinterpret a uint64_t value as int64_t (two's complement). -/
def ofU64 (v : ℕ) : ℤ :=
  if v % 2 ^ 64 < 2 ^ 63 then ((v % 2 ^ 64 : ℕ) : ℤ)
  else ((v % 2 ^ 64 : ℕ) : ℤ) - 2 ^ 64

/-- The ns3::Time value class: a signed 64-bit tick count m_data interpreted
under the process-wide resolution.  Arithmetic on int64_t that cannot
overflow in the claims at hand is embedded as exact integer arithmetic. -/
structure Time where
  m_data : ℤ
deriving DecidableEq, Repr

/-- Time::IsZero: m_data == 0. -/
def Time.IsZero (t : Time) : Bool := decide (t.m_data = 0)

/-- Time::IsNegative: m_data <= 0 (zero included, per the source). -/
def Time.IsNegative (t : Time) : Bool := decide (t.m_data ≤ 0)

/-- Time::IsPositive: m_data >= 0 (zero included, per the source). -/
def Time.IsPositive (t : Time) : Bool := decide (0 ≤ t.m_data)

/-- Time::IsStrictlyNegative: m_data < 0. -/
def Time.IsStrictlyNegative (t : Time) : Bool := decide (t.m_data < 0)

/-- Time::IsStrictlyPositive: m_data > 0. -/
def Time.IsStrictlyPositive (t : Time) : Bool := decide (0 < t.m_data)

/-- Time::Compare: -1, 0 or +1 by comparing the raw tick values. -/
def Time.Compare (a o : Time) : ℤ :=
  if a.m_data < o.m_data then -1 else if a.m_data = o.m_data then 0 else 1

/-- The free operator == on Time: equality of the raw tick values. -/
def timeEQ (lhs rhs : Time) : Bool := decide (lhs.m_data = rhs.m_data)

/-- The free operator != on Time. -/
def timeNE (lhs rhs : Time) : Bool := decide (lhs.m_data ≠ rhs.m_data)

/-- The free operator <= on Time. -/
def timeLE (lhs rhs : Time) : Bool := decide (lhs.m_data ≤ rhs.m_data)

/-- The free operator >= on Time. -/
def timeGE (lhs rhs : Time) : Bool := decide (rhs.m_data ≤ lhs.m_data)

/-- The free operator < on Time. -/
def timeLT (lhs rhs : Time) : Bool := decide (lhs.m_data < rhs.m_data)

/-- The free operator > on Time. -/
def timeGT (lhs rhs : Time) : Bool := decide (rhs.m_data < lhs.m_data)

/-- The free operator + on Time: tick-for-tick addition. -/
def timeAdd (lhs rhs : Time) : Time := ⟨lhs.m_data + rhs.m_data⟩

/-- The free operator - on Time: tick-for-tick subtraction. -/
def timeSub (lhs rhs : Time) : Time := ⟨lhs.m_data - rhs.m_data⟩

/-- The free operator += on Time: the updated left operand. -/
def timeAddAssign (lhs rhs : Time) : Time := ⟨lhs.m_data + rhs.m_data⟩

/-- The free operator -= on Time: the updated left operand. -/
def timeSubAssign (lhs rhs : Time) : Time := ⟨lhs.m_data - rhs.m_data⟩

/-- The free function Abs on Time. -/
def Abs (time : Time) : Time :=
  if time.m_data < 0 then ⟨-time.m_data⟩ else ⟨time.m_data⟩

/-- The free function Max on Time. -/
def Max (ta tb : Time) : Time := if ta.m_data < tb.m_data then tb else ta

/-- The free function Min on Time. -/
def Min (ta tb : Time) : Time := if ta.m_data > tb.m_data then tb else ta

/-- Claim C9: Compare returns -1, 0 or +1 exactly according to the order of
the raw tick values; the six relational operators, +, -, +=, -=, Abs, Min
and Max are the corresponding total-order and additive operations on the
raw tick values.  None of these definitions takes the global resolution as
an input, which is how the source functions behave: they read only m_data
and never call PeekResolution. -/
theorem c9_time_order_group (a b : Time) :
    (Time.Compare a b = -1 ↔ a.m_data < b.m_data) ∧
    (Time.Compare a b = 0 ↔ a.m_data = b.m_data) ∧
    (Time.Compare a b = 1 ↔ b.m_data < a.m_data) ∧
    (timeEQ a b = true ↔ a.m_data = b.m_data) ∧
    (timeNE a b = true ↔ a.m_data ≠ b.m_data) ∧
    (timeLE a b = true ↔ a.m_data ≤ b.m_data) ∧
    (timeGE a b = true ↔ b.m_data ≤ a.m_data) ∧
    (timeLT a b = true ↔ a.m_data < b.m_data) ∧
    (timeGT a b = true ↔ b.m_data < a.m_data) ∧
    (timeAdd a b).m_data = a.m_data + b.m_data ∧
    (timeSub a b).m_data = a.m_data - b.m_data ∧
    timeAddAssign a b = timeAdd a b ∧
    timeSubAssign a b = timeSub a b ∧
    timeAdd a b = timeAdd b a ∧
    timeAdd a (timeSub b a) = b ∧
    (Abs a).m_data = |a.m_data| ∧
    (Min a b).m_data = min a.m_data b.m_data ∧
    (Max a b).m_data = max a.m_data b.m_data := by
  refine ⟨?_, ?_, ?_, ?_, ?_, ?_, ?_, ?_, ?_, ?_, ?_, ?_, ?_, ?_, ?_, ?_, ?_, ?_⟩
  · unfold Time.Compare
    split_ifs with h1 h2
    · exact iff_of_true rfl h1
    · exact iff_of_false (by decide) (by omega)
    · exact iff_of_false (by decide) (by omega)
  · unfold Time.Compare
    split_ifs with h1 h2
    · exact iff_of_false (by decide) (by omega)
    · exact iff_of_true rfl h2
    · exact iff_of_false (by decide) (by omega)
  · unfold Time.Compare
    split_ifs with h1 h2
    · exact iff_of_false (by decide) (by omega)
    · exact iff_of_false (by decide) (by omega)
    · exact iff_of_true rfl (by omega)
  · simp [timeEQ]
  · simp [timeNE]
  · simp [timeLE]
  · simp [timeGE]
  · simp [timeLT]
  · simp [timeGT]
  · rfl
  · rfl
  · rfl
  · rfl
  · unfold timeAdd
    exact congrArg Time.mk (add_comm _ _)
  · cases a
    cases b
    simp only [timeAdd, timeSub, Time.mk.injEq]
    omega
  · unfold Abs
    split
    · rename_i h
      simp [abs_of_neg h]
    · rename_i h
      push_neg at h
      simp [abs_of_nonneg h]
  · unfold Min
    split
    · rename_i h
      exact (min_eq_right (le_of_lt h)).symm
    · rename_i h
      exact (min_eq_left (by omega)).symm
  · unfold Max
    split
    · rename_i h
      exact (max_eq_right (le_of_lt h)).symm
    · rename_i h
      exact (max_eq_left (by omega)).symm

/-- Claim C10: for the zero Time, IsNegative and IsPositive both return true
(the source tests m_data <= 0 and m_data >= 0), while IsStrictlyNegative and
IsStrictlyPositive both return false; hence IsNegative is not the negation
of IsPositive. -/
theorem c10_zero_sign_predicates :
    Time.IsNegative ⟨0⟩ = true ∧
    Time.IsPositive ⟨0⟩ = true ∧
    Time.IsStrictlyNegative ⟨0⟩ = false ∧
    Time.IsStrictlyPositive ⟨0⟩ = false ∧
    Time.IsNegative ⟨0⟩ ≠ !Time.IsPositive ⟨0⟩ := by
  decide

/-- Modelled from the spec: int64x64_t::MulByInvert, multiplication by a
reciprocal previously computed by Invert.  Invert stores 2 ^ 128 / v, so
the product drops 128 bits, truncating toward zero; the net effect of
multiplying by Invert(v) is division by v in 64.64 fixed point. -/
def mulByInvert (a b : ℤ) : ℤ := Int.tdiv (a * b) (2 ^ 128)

/-- Time::FromInteger: interpret value (a uint64_t, so reduced modulo
2 ^ 64) in the given unit under resolution res; multiply or divide by the
integer factor per the descriptor direction (uint64_t arithmetic), then
build the Time from the resulting 64-bit pattern. -/
def Time.FromInteger (res : TimeUnit) (value : ℕ) (u : TimeUnit) : Time :=
  ⟨ofU64 (if (information res u).fromMul
    then value % 2 ^ 64 * (information res u).factor % 2 ^ 64
    else value % 2 ^ 64 / (information res u).factor)⟩

/-- Time::ToInteger: convert the tick count into an integer amount of unit
u under resolution res.  The local int64_t v is multiplied or divided by
the uint64_t factor: the usual arithmetic conversions make both operations
uint64_t arithmetic on the bit pattern of v, and the result is stored back
into the int64_t (wrapping). -/
def Time.ToInteger (res : TimeUnit) (t : Time) (u : TimeUnit) : ℤ :=
  if (information res u).toMul
  then wrap64 (t.m_data * ((information res u).factor : ℤ))
  else ofU64 (toU64 t.m_data / (information res u).factor)

/-- Time::From for a 64.64 fixed-point value q given in unit u: multiply by
the 64.64 multiplier timeFrom (the divide direction goes through
MulByInvert with the stored reciprocal), then keep the integer part of the
result through the Time(const int64x64_t &) constructor, i.e. GetHigh. -/
def Time.From (res : TimeUnit) (q : ℤ) (u : TimeUnit) : Time :=
  ⟨getHigh (if (information res u).fromMul
    then i64x64mul q (information res u).timeFrom
    else mulByInvert q (information res u).timeFrom)⟩

/-- Round trip of claim C3: ToInteger into unit u, then FromInteger back,
under resolution res. -/
def roundTrip (res : TimeUnit) (N : ℤ) (u : TimeUnit) : Time :=
  Time.FromInteger res (toU64 (Time.ToInteger res ⟨N⟩ u)) u

/-- Statement of claim C2 in the words of the spec, for comparison with the
source-derived Time::From: multiply the 64.64 input by the 64.64 multiplier
of the unit and round the result to the nearest integer tick (the product
lives at scale 2 ^ 128; half rounds up). -/
def claimFromNearest (res : TimeUnit) (q : ℤ) (u : TimeUnit) : ℤ :=
  Int.fdiv (q * (information res u).timeFrom + 2 ^ 127) (2 ^ 128)

/-- Modelled from the spec: the process-wide bookkeeping behind
Time::SetResolution, Time::GetTimesSet and Time::ConvertTimes (their
nstime.cc bodies are not among the provided sources): the active
resolution, the tick data of every currently live tracked Time instance,
and whether the tracking set is still alive — GetTimesSet(true) deletes
the set so that it returns a null pointer ever after, as its declaration
in nstime.h documents. -/
structure TimeGlobalState where
  resolution : TimeUnit
  liveTimes : List ℤ
  trackingActive : Bool
deriving DecidableEq, Repr

/-- Modelled from the spec: Time::SetResolution(unit).  While the tracking
set is alive, ConvertTimes rewrites every tracked instance into the new
unit using the conversion data of the old resolution and then deletes the
tracking set; once the tracking set is gone the conversion cannot be
applied and the call is a fatal assertion failure, never a silent
success. -/
def SetResolution (u : TimeUnit) (s : TimeGlobalState) :
    Except String TimeGlobalState :=
  if s.trackingActive then
    Except.ok ⟨u, s.liveTimes.map (fun d => Time.ToInteger s.resolution ⟨d⟩ u), false⟩
  else
    Except.error "Time::ConvertTimes: no time tracking data; Time::SetResolution called more than once"

theorem unitFactor_pos (res u : TimeUnit) : 0 < unitFactor res u :=
  Nat.pos_pow_of_pos _ (by norm_num)

theorem wrap64_id (x : ℤ) (h1 : -(2 ^ 63) ≤ x) (h2 : x < 2 ^ 63) :
    wrap64 x = x := by
  unfold wrap64
  omega

theorem toU64_id (x : ℤ) (h1 : 0 ≤ x) (h2 : x < 2 ^ 64) : toU64 x = x.toNat := by
  unfold toU64
  omega

theorem ofU64_id (v : ℕ) (h : v < 2 ^ 63) : ofU64 v = (v : ℤ) := by
  unfold ofU64
  rw [Nat.mod_eq_of_lt (by omega), if_pos (by omega)]

theorem information_self (res u : TimeUnit) (h : res.idx = u.idx) :
    information res u = ⟨true, true, 1, one64, one64⟩ := by
  unfold information
  rw [if_pos (by omega)]
  have : unitFactor res u = 1 := by
    unfold unitFactor
    rw [show (res.idx - u.idx).natAbs = 0 by omega]
    norm_num
  rw [this]

theorem information_coarse (res u : TimeUnit) (h : u.idx < res.idx) :
    information res u =
      ⟨false, true, unitFactor res u, invert64 (unitFactor res u),
        ((unitFactor res u : ℕ) : ℤ) * 2 ^ 64⟩ := by
  unfold information
  rw [if_neg (by omega), if_pos (by omega)]

theorem information_fine (res u : TimeUnit) (h : res.idx < u.idx) :
    information res u =
      ⟨true, false, unitFactor res u, ((unitFactor res u : ℕ) : ℤ) * 2 ^ 64,
        invert64 (unitFactor res u)⟩ := by
  unfold information
  rw [if_neg (by omega), if_neg (by omega)]

theorem factor_eq (res u : TimeUnit) :
    (information res u).factor = unitFactor res u := by
  unfold information
  split_ifs <;> rfl

theorem toInteger_mul (res u : TimeUnit) (h : (information res u).toMul = true)
    (t : Time) : Time.ToInteger res t u =
      wrap64 (t.m_data * ((information res u).factor : ℤ)) := by
  unfold Time.ToInteger
  rw [if_pos h]

theorem toInteger_div (res u : TimeUnit) (h : (information res u).toMul = false)
    (t : Time) : Time.ToInteger res t u =
      ofU64 (toU64 t.m_data / (information res u).factor) := by
  unfold Time.ToInteger
  rw [h, if_neg (by simp)]

theorem fromInteger_mul (res u : TimeUnit)
    (h : (information res u).fromMul = true) (v : ℕ) :
    Time.FromInteger res v u =
      ⟨ofU64 (v % 2 ^ 64 * (information res u).factor % 2 ^ 64)⟩ := by
  unfold Time.FromInteger
  rw [if_pos h]

theorem fromInteger_div (res u : TimeUnit)
    (h : (information res u).fromMul = false) (v : ℕ) :
    Time.FromInteger res v u =
      ⟨ofU64 (v % 2 ^ 64 / (information res u).factor)⟩ := by
  unfold Time.FromInteger
  rw [h, if_neg (by simp)]

theorem roundTrip_self (res u : TimeUnit) (hu : res.idx = u.idx) (N : ℤ)
    (h0 : 0 ≤ N) (h1 : N < 2 ^ 63) : (roundTrip res N u).m_data = N := by
  have hinfo := information_self res u hu
  have hfac : (information res u).factor = 1 := by rw [hinfo]
  have h64 : N.toNat < 2 ^ 64 := by omega
  unfold roundTrip
  rw [toInteger_mul res u (by rw [hinfo]) ⟨N⟩, hfac]
  simp only [Nat.cast_one, mul_one]
  rw [wrap64_id N (by omega) h1, toU64_id N h0 (by omega)]
  rw [fromInteger_mul res u (by rw [hinfo]) _, hfac]
  show ofU64 (N.toNat % 2 ^ 64 * 1 % 2 ^ 64) = N
  rw [Nat.mul_one, Nat.mod_eq_of_lt h64, Nat.mod_eq_of_lt h64]
  rw [ofU64_id _ (by omega)]
  exact Int.toNat_of_nonneg h0

theorem roundTrip_fine (res u : TimeUnit) (hu : res.idx < u.idx) (N : ℤ)
    (h0 : 0 ≤ N) (h1 : N < 2 ^ 63)
    (hf : N * ((unitFactor res u : ℕ) : ℤ) < 2 ^ 63) :
    (roundTrip res N u).m_data = N := by
  have hinfo := information_fine res u hu
  have hfac := factor_eq res u
  have hfpos := unitFactor_pos res u
  have hmulnn : 0 ≤ N * ((unitFactor res u : ℕ) : ℤ) :=
    mul_nonneg h0 (Int.natCast_nonneg _)
  have hNf : N * ((unitFactor res u : ℕ) : ℤ) =
      ((N.toNat * unitFactor res u : ℕ) : ℤ) := by
    push_cast
    rw [Int.toNat_of_nonneg h0]
  have hsmall : N.toNat * unitFactor res u < 2 ^ 63 := by omega
  unfold roundTrip
  rw [toInteger_mul res u (by rw [hinfo]) ⟨N⟩, hfac]
  rw [wrap64_id _ (by omega) hf, toU64_id _ hmulnn (by omega)]
  rw [hNf, Int.toNat_natCast]
  rw [fromInteger_div res u (by rw [hinfo]) _, hfac]
  show ofU64 (N.toNat * unitFactor res u % 2 ^ 64 / unitFactor res u) = N
  rw [Nat.mod_eq_of_lt (by omega)]
  rw [Nat.mul_div_cancel _ hfpos]
  rw [ofU64_id _ (by omega)]
  exact Int.toNat_of_nonneg h0

theorem roundTrip_coarse (res u : TimeUnit) (hu : u.idx < res.idx) (N : ℤ)
    (h0 : 0 ≤ N) (h1 : N < 2 ^ 63) :
    (roundTrip res N u).m_data = N - N % ((unitFactor res u : ℕ) : ℤ) ∧
    N - ((unitFactor res u : ℕ) : ℤ) < (roundTrip res N u).m_data ∧
    (roundTrip res N u).m_data ≤ N := by
  have hinfo := information_coarse res u hu
  have hfac := factor_eq res u
  have hfpos := unitFactor_pos res u
  have hdm := Nat.div_add_mod N.toNat (unitFactor res u)
  rw [Nat.mul_comm] at hdm
  have hmlt : N.toNat % unitFactor res u < unitFactor res u :=
    Nat.mod_lt _ hfpos
  have hNN : ((N.toNat : ℕ) : ℤ) = N := Int.toNat_of_nonneg h0
  have hdivle := Nat.div_le_self N.toNat (unitFactor res u)
  have hmulle : N.toNat / unitFactor res u * unitFactor res u ≤ N.toNat :=
    Nat.div_mul_le_self _ _
  have hmod : N % ((unitFactor res u : ℕ) : ℤ) =
      ((N.toNat % unitFactor res u : ℕ) : ℤ) := by
    rw [Int.ofNat_emod, hNN]
  have hrt : (roundTrip res N u).m_data =
      ((N.toNat / unitFactor res u * unitFactor res u : ℕ) : ℤ) := by
    unfold roundTrip
    rw [toInteger_div res u (by rw [hinfo]) ⟨N⟩, hfac]
    rw [toU64_id N h0 (by omega)]
    show (Time.FromInteger res
      (toU64 (ofU64 (N.toNat / unitFactor res u))) u).m_data = _
    rw [ofU64_id _ (by omega)]
    rw [toU64_id _ (Int.natCast_nonneg _) (by omega)]
    rw [Int.toNat_natCast]
    rw [fromInteger_mul res u (by rw [hinfo]) _, hfac]
    show ofU64 (N.toNat / unitFactor res u % 2 ^ 64 * unitFactor res u % 2 ^ 64)
      = _
    rw [Nat.mod_eq_of_lt (show N.toNat / unitFactor res u < 2 ^ 64 by omega)]
    rw [Nat.mod_eq_of_lt
      (show N.toNat / unitFactor res u * unitFactor res u < 2 ^ 64 by omega)]
    rw [ofU64_id _ (by omega)]
  refine ⟨?_, ?_, ?_⟩ <;> rw [hrt] <;> omega

/-- Claim C3 as amended: for every unit u and every nonnegative
representable tick count N (the int64 multiply must also not overflow when
u is at least as fine as the resolution), ToInteger into u followed by
FromInteger from u restores N exactly when u is at least as fine as the
current resolution, and otherwise loses exactly the remainder of N modulo
the unit factor, so the result is within one unit below N.  The original
claim fails for negative tick counts: both conversion helpers run uint64_t
arithmetic on the two's-complement pattern, see the counterexample. -/
theorem c3_roundtrip (res u : TimeUnit) (N : ℤ) (h0 : 0 ≤ N) (h1 : N < 2 ^ 63)
    (hf : res.idx ≤ u.idx → N * ((unitFactor res u : ℕ) : ℤ) < 2 ^ 63) :
    (res.idx ≤ u.idx → (roundTrip res N u).m_data = N) ∧
    (u.idx < res.idx →
      (roundTrip res N u).m_data = N - N % ((unitFactor res u : ℕ) : ℤ) ∧
      N - ((unitFactor res u : ℕ) : ℤ) < (roundTrip res N u).m_data ∧
      (roundTrip res N u).m_data ≤ N) := by
  constructor
  · intro hle
    rcases eq_or_lt_of_le hle with heq | hlt
    · exact roundTrip_self res u heq N h0 h1
    · exact roundTrip_fine res u hlt N h0 h1 (hf hle)
  · intro hlt
    exact roundTrip_coarse res u hlt N h0 h1

/-- Witness for c3_roundtrip at resolution NS, unit PS (finer: exact) with
N = 10 ticks. -/
theorem c3_roundtrip_witness :
    (TimeUnit.idx .NS ≤ TimeUnit.idx .PS → (roundTrip .NS 10 .PS).m_data = 10) ∧
    (TimeUnit.idx .PS < TimeUnit.idx .NS →
      (roundTrip .NS 10 .PS).m_data = 10 - 10 % ((unitFactor .NS .PS : ℕ) : ℤ) ∧
      10 - ((unitFactor .NS .PS : ℕ) : ℤ) < (roundTrip .NS 10 .PS).m_data ∧
      (roundTrip .NS 10 .PS).m_data ≤ 10) :=
  c3_roundtrip .NS .PS 10 (by decide) (by decide) (by decide)

/-- Counterexample to claim C3 as stated: under the default nanosecond
resolution, femtoseconds are at least as fine as the resolution, so the
claim demands an exact round trip for every representable tick count; the
tick count -1 comes back as 18446744073708 because ToInteger and
FromInteger run uint64_t arithmetic on the two's-complement pattern. -/
theorem c3_roundtrip_counterexample :
    (roundTrip .NS (-1) .FS).m_data = 18446744073708 ∧
    (roundTrip .NS (-1) .FS).m_data ≠ -1 := by decide

/-- Claim C2 as amended: whenever the conversion descriptor multiplies
(the unit is at least as coarse as the current resolution), Time::From
produces the floor of the exact product of the input with the unit factor
in 64.64 fixed point — truncation toward minus infinity via GetHigh, not
rounding to the nearest tick.  Finer units go through the truncating
reciprocal multiply MulByInvert. -/
theorem from_mul (res u : TimeUnit) (h : (information res u).fromMul = true)
    (q : ℤ) :
    Time.From res q u = ⟨getHigh (i64x64mul q (information res u).timeFrom)⟩ := by
  unfold Time.From
  rw [if_pos h]

theorem c2_from_floor (res u : TimeUnit) (q : ℤ)
    (h : (information res u).fromMul = true) :
    (Time.From res q u).m_data =
      Int.fdiv (q * (((information res u).factor : ℕ) : ℤ)) (2 ^ 64) := by
  rcases lt_trichotomy res.idx u.idx with hlt | heq | hgt
  · rw [information_fine res u hlt] at h
    simp at h
  · have hinfo := information_self res u heq
    have hfac : (information res u).factor = 1 := by rw [hinfo]
    have htf : (information res u).timeFrom = one64 := by rw [hinfo]
    rw [from_mul res u h q, hfac, htf]
    show getHigh (i64x64mul q one64) = _
    unfold i64x64mul one64 getHigh
    rw [Int.mul_tdiv_cancel q (by norm_num)]
    norm_num
  · have hinfo := information_coarse res u hgt
    have hfac := factor_eq res u
    have htf : (information res u).timeFrom =
        ((unitFactor res u : ℕ) : ℤ) * 2 ^ 64 := by rw [hinfo]
    rw [from_mul res u h q, hfac, htf]
    show getHigh (i64x64mul q (((unitFactor res u : ℕ) : ℤ) * 2 ^ 64)) = _
    unfold i64x64mul getHigh
    rw [← mul_assoc]
    rw [Int.mul_tdiv_cancel _ (by norm_num)]

/-- Witness for c2_from_floor: 5.75 in 64.64 under the default nanosecond
resolution, unit NS. -/
theorem c2_from_floor_witness :
    (Time.From .NS (5 * 2 ^ 64 + 3 * 2 ^ 62) .NS).m_data =
      Int.fdiv ((5 * 2 ^ 64 + 3 * 2 ^ 62) *
        (((information .NS .NS).factor : ℕ) : ℤ)) (2 ^ 64) :=
  c2_from_floor .NS .NS (5 * 2 ^ 64 + 3 * 2 ^ 62) (by decide)

/-- Counterexample to claim C2 as stated: the 64.64 value 5.75 given in
nanoseconds under the default nanosecond resolution produces 5 ticks
(truncation), while rounding the product to the nearest tick — the
behaviour the claim describes, written out in claimFromNearest — gives
6. -/
theorem c2_from_counterexample :
    (Time.From .NS (5 * 2 ^ 64 + 3 * 2 ^ 62) .NS).m_data = 5 ∧
    claimFromNearest .NS (5 * 2 ^ 64 + 3 * 2 ^ 62) .NS = 6 ∧
    (Time.From .NS (5 * 2 ^ 64 + 3 * 2 ^ 62) .NS).m_data ≠
      claimFromNearest .NS (5 * 2 ^ 64 + 3 * 2 ^ 62) .NS := by decide

/-- Claim C1: SetResolution is a one-shot global operation.  While the
tracking structure is alive, the first call rescales every live Time
instance to the new unit (using the old conversion table) and discards the
tracking structure; any second call then fails with a fatal error, never a
silent success. -/
theorem c1_set_resolution_one_shot (u u2 : TimeUnit) (s : TimeGlobalState)
    (h : s.trackingActive = true) :
    SetResolution u s = Except.ok
      ⟨u, s.liveTimes.map (fun d => Time.ToInteger s.resolution ⟨d⟩ u), false⟩ ∧
    ∀ s2, SetResolution u s = Except.ok s2 →
      ∃ msg, SetResolution u2 s2 = Except.error msg := by
  constructor
  · unfold SetResolution
    rw [if_pos h]
  · intro s2 h2
    unfold SetResolution at h2 ⊢
    rw [if_pos h] at h2
    injection h2 with h3
    subst h3
    exact ⟨_, rfl⟩

/-- Witness for c1_set_resolution_one_shot: two live times of 10 and 25
nanoseconds, resolution changed to microseconds (both rescale to 0 ticks),
then a second change to milliseconds is refused. -/
theorem c1_set_resolution_one_shot_witness :
    SetResolution .US ⟨.NS, [10, 25], true⟩ = Except.ok ⟨.US, [0, 0], false⟩ ∧
    ∀ s2, SetResolution .US ⟨.NS, [10, 25], true⟩ = Except.ok s2 →
      ∃ msg, SetResolution .MS s2 = Except.error msg := by
  have h := c1_set_resolution_one_shot .US .MS ⟨.NS, [10, 25], true⟩ rfl
  exact ⟨h.1.trans (by rfl), h.2⟩

/-- Address family matched against the LocalAddress attribute in
FncsApplication::Send and StartApplication: IPv4, IPv6, or neither. -/
inductive LocalKind
  | ipv4
  | ipv6
  | other
deriving DecidableEq, Repr

/-- Observable actions of FncsApplication::Send, in program order: the Tx
trace source firing with a packet payload, and the socket transmission of
a packet payload. -/
inductive Action
  | txTrace (p : List Char)
  | sendTo (p : List Char)
deriving DecidableEq, Repr

/-- State of one FncsApplication endpoint: the Name attribute, the uint32
sent counter, the address family of the LocalAddress attribute, and the
socket lifecycle flags set by StartApplication. -/
structure FncsApplication where
  m_name : String
  m_sent : ℕ
  localKind : LocalKind
  socketBound : Bool
  recvCallbackSet : Bool
deriving DecidableEq, Repr

/-- Payload buffer built by FncsApplication::Send: the topic bytes, then a
single = byte, then the value bytes, written consecutively into a fresh
buffer of size topic.size() + 1 + value.size(). -/
def payloadOf (topic value : List Char) : List Char := topic ++ '=' :: value

/-- FncsApplication::Send: build the payload, fire the Tx trace with the
fully formed packet before any transmission, transmit only when the local
address matches IPv4 or IPv6 (otherwise no SendTo happens at all), and
finally step the uint32 sent counter.  Returns the emitted actions in
program order together with the new endpoint state. -/
def fncsSend (app : FncsApplication) (topic value : List Char) :
    List Action × FncsApplication :=
  let p := payloadOf topic value
  let acts := Action.txTrace p ::
    (match app.localKind with
      | LocalKind.ipv4 => [Action.sendTo p]
      | LocalKind.ipv6 => [Action.sendTo p]
      | LocalKind.other => [])
  (acts, { app with m_sent := (app.m_sent + 1) % 2 ^ 32 })

/-- Run a sequence of Send calls, threading the endpoint state. -/
def runSends (app : FncsApplication) :
    List (List Char × List Char) → FncsApplication
  | [] => app
  | c :: cs => runSends (fncsSend app c.1 c.2).2 cs

/-- FncsApplication::StartApplication: the run is fatal when the Name
attribute is the empty string (in the source the socket is bound and the
receive callback installed before the check aborts the process; on the
non-fatal path the returned state carries those effects). -/
def StartApplication (app : FncsApplication) : Except String FncsApplication :=
  if app.m_name = "" then Except.error "FncsApplication is missing name"
  else Except.ok { app with socketBound := true, recvCallbackSet := true }

/-- Split of one inbound datagram at the first = byte, as located by
find in FncsApplication::HandleRead; none when the payload holds no =. -/
def splitTopicValue : List Char → Option (List Char × List Char)
  | [] => none
  | c :: rest =>
    if c = '=' then some ([], rest)
    else (splitTopicValue rest).map (fun p => (c :: p.1, p.2))

/-- FncsApplication::HandleRead on one drained datagram: a payload without
= is fatal, otherwise the topic before the first = and the value after it
are republished into the co-simulation fabric through fncs publish (the ok
result is the published pair). -/
def handleRead (payload : List Char) : Except String (List Char × List Char) :=
  match splitTopicValue payload with
  | none => Except.error "HandleRead could not locate = to split topic=value"
  | some tv => Except.ok tv

theorem splitTopicValue_none (p : List Char) (h : '=' ∉ p) :
    splitTopicValue p = none := by
  induction p with
  | nil => rfl
  | cons c rest ih =>
    have h1 : ¬ c = '=' := fun hc => h (by simp [hc])
    have h2 : '=' ∉ rest := fun hm => h (List.mem_cons_of_mem _ hm)
    unfold splitTopicValue
    rw [if_neg h1, ih h2]
    rfl

theorem splitTopicValue_append (a b : List Char) (h : '=' ∉ a) :
    splitTopicValue (a ++ '=' :: b) = some (a, b) := by
  induction a with
  | nil => rfl
  | cons c rest ih =>
    have h1 : ¬ c = '=' := fun hc => h (by simp [hc])
    have h2 : '=' ∉ rest := fun hm => h (List.mem_cons_of_mem _ hm)
    show splitTopicValue (c :: (rest ++ '=' :: b)) = _
    unfold splitTopicValue
    rw [if_neg h1, ih h2]
    rfl

/-- Claim C5: HandleRead locates the first = byte of the inbound payload;
a payload containing no = is a fatal error (no partial recovery), and
otherwise the republished topic is exactly the bytes before that first =
and the republished value all bytes after it. -/
theorem c5_handle_read (p : List Char) :
    ('=' ∉ p → handleRead p =
      Except.error "HandleRead could not locate = to split topic=value") ∧
    (∀ a b, p = a ++ '=' :: b → '=' ∉ a →
      handleRead p = Except.ok (a, b)) := by
  constructor
  · intro h
    unfold handleRead
    rw [splitTopicValue_none p h]
  · intro a b hp ha
    unfold handleRead
    rw [hp, splitTopicValue_append a b ha]

/-- Witness for c5_handle_read: the payload volt=120.5 splits into topic
volt and value 120.5, and a payload without = takes the fatal path. -/
theorem c5_handle_read_witness :
    handleRead ['v', 'o', 'l', 't', '=', '1', '2', '0', '.', '5'] =
      Except.ok (['v', 'o', 'l', 't'], ['1', '2', '0', '.', '5']) ∧
    handleRead ['v', 'o', 'l', 't'] =
      Except.error "HandleRead could not locate = to split topic=value" :=
  ⟨(c5_handle_read _).2 ['v', 'o', 'l', 't'] ['1', '2', '0', '.', '5'] rfl
      (by decide),
    (c5_handle_read _).1 (by decide)⟩

/-- Every action of a list is the transmission of payload p. -/
def transmitsOnly (p : List Char) : List Action → Prop
  | [] => True
  | a :: rest => a = Action.sendTo p ∧ transmitsOnly p rest

/-- Claim C6: Send builds the outgoing payload as exactly the topic bytes,
one = byte and the value bytes (no escaping of = inside the topic), fires
the Tx trace with that fully formed payload first, and everything after
the trace only ever transmits that same payload; topic volt with value
120.5 yields the bytes volt=120.5. -/
theorem c6_send_payload_trace (app : FncsApplication)
    (topic value : List Char) :
    payloadOf topic value = topic ++ '=' :: value ∧
    (fncsSend app topic value).1.head? =
      some (Action.txTrace (topic ++ '=' :: value)) ∧
    transmitsOnly (topic ++ '=' :: value) (fncsSend app topic value).1.tail ∧
    payloadOf "volt".toList "120.5".toList = "volt=120.5".toList := by
  refine ⟨rfl, rfl, ?_, by decide⟩
  cases h : app.localKind <;>
    simp [fncsSend, payloadOf, h, transmitsOnly]

theorem fncsSend_sent (app : FncsApplication) (topic value : List Char) :
    (fncsSend app topic value).2.m_sent = (app.m_sent + 1) % 2 ^ 32 := rfl

theorem runSends_sent :
    ∀ (calls : List (List Char × List Char)) (app : FncsApplication),
      app.m_sent < 2 ^ 32 →
      (runSends app calls).m_sent = (app.m_sent + calls.length) % 2 ^ 32 := by
  intro calls
  induction calls with
  | nil =>
    intro app h
    show app.m_sent = (app.m_sent + 0) % 2 ^ 32
    omega
  | cons c cs ih =>
    intro app h
    show (runSends (fncsSend app c.1 c.2).2 cs).m_sent = _
    rw [ih _ (by rw [fncsSend_sent]; omega), fncsSend_sent]
    show _ = (app.m_sent + (cs.length + 1)) % 2 ^ 32
    omega

/-- Claim C7 as amended: every Send call steps the 32-bit sent counter by
one modulo 2 ^ 32, in every address-family branch including the one that
transmits nothing; as long as a run performs fewer than 2 ^ 32 sends the
counter equals the exact number of Send calls (and is in particular
monotone over such a run).  The unbounded form of the claim fails because
m_sent is a uint32_t, see the counterexample. -/
theorem c7_sent_counter (app : FncsApplication) (topic value : List Char)
    (calls : List (List Char × List Char)) (app2 : FncsApplication)
    (h : app2.m_sent + calls.length < 2 ^ 32) :
    (fncsSend app topic value).2.m_sent = (app.m_sent + 1) % 2 ^ 32 ∧
    (runSends app2 calls).m_sent = app2.m_sent + calls.length := by
  refine ⟨fncsSend_sent app topic value, ?_⟩
  rw [runSends_sent calls app2 (by omega)]
  omega

/-- Witness for c7_sent_counter: two Send calls from a fresh endpoint whose
address matches neither family still count, ending at 2. -/
theorem c7_sent_counter_witness :
    (fncsSend ⟨"f1", 0, LocalKind.other, false, false⟩ [] []).2.m_sent =
      (0 + 1) % 2 ^ 32 ∧
    (runSends ⟨"f1", 0, LocalKind.other, false, false⟩
      [([], []), ([], [])]).m_sent = 0 + 2 :=
  c7_sent_counter ⟨"f1", 0, LocalKind.other, false, false⟩ [] []
    [([], []), ([], [])] ⟨"f1", 0, LocalKind.other, false, false⟩
    (by norm_num)

/-- Counterexample to claim C7 as stated: the sent counter is a uint32_t,
so a run of 2 ^ 32 Send calls ends with the counter at 0, not at the
total number of Send calls, and the counter is not monotone across the
wrap. -/
theorem c7_sent_counter_counterexample :
    (runSends ⟨"f1", 0, LocalKind.other, false, false⟩
      (List.replicate (2 ^ 32) ([], []))).m_sent = 0 ∧
    (List.replicate (2 ^ 32) (([] : List Char), ([] : List Char))).length =
      2 ^ 32 ∧
    (0 : ℕ) ≠ 2 ^ 32 := by
  refine ⟨?_, ?_, by norm_num⟩
  · rw [runSends_sent _ _ (by norm_num), List.length_replicate]
    norm_num
  · rw [List.length_replicate]

/-- Claim C8: starting a federate endpoint with an empty name is fatal,
and an endpoint with any non-empty name starts without that fatal path,
with the socket bound and the receive callback installed. -/
theorem c8_start_requires_name (app : FncsApplication) :
    (app.m_name = "" → StartApplication app =
      Except.error "FncsApplication is missing name") ∧
    (app.m_name ≠ "" → ∃ app2, StartApplication app = Except.ok app2 ∧
      app2.m_name = app.m_name ∧ app2.socketBound = true ∧
      app2.recvCallbackSet = true) := by
  constructor
  · intro h
    unfold StartApplication
    rw [if_pos h]
  · intro h
    unfold StartApplication
    rw [if_neg h]
    exact ⟨_, rfl, rfl, rfl, rfl⟩

/-- Witness for c8_start_requires_name: the empty name aborts, the name f1
starts successfully. -/
theorem c8_start_requires_name_witness :
    StartApplication ⟨"", 0, LocalKind.other, false, false⟩ =
      Except.error "FncsApplication is missing name" ∧
    ∃ app2, StartApplication ⟨"f1", 0, LocalKind.other, false, false⟩ =
      Except.ok app2 ∧ app2.m_name = "f1" ∧ app2.socketBound = true ∧
      app2.recvCallbackSet = true :=
  ⟨(c8_start_requires_name ⟨"", 0, LocalKind.other, false, false⟩).1 rfl,
    (c8_start_requires_name ⟨"f1", 0, LocalKind.other, false, false⟩).2
      (by decide)⟩

/-- Key order of the pending-event structure: strictly earlier virtual
time first, and among equal times the smaller insertion sequence not
after.  Events are embedded as pairs of virtual time and insertion
sequence number. -/
def evLE (a b : ℕ × ℕ) : Prop := a.1 < b.1 ∨ (a.1 = b.1 ∧ a.2 ≤ b.2)

instance instDecEvLE : DecidableRel evLE := fun a b =>
  decidable_of_iff (a.1 < b.1 ∨ (a.1 = b.1 ∧ a.2 ≤ b.2)) Iff.rfl

instance instTotalEvLE : IsTotal (ℕ × ℕ) evLE := ⟨fun a b => by
  unfold evLE
  omega⟩

instance instTransEvLE : IsTrans (ℕ × ℕ) evLE := ⟨fun a b c hab hbc => by
  unfold evLE at hab hbc ⊢
  omega⟩

/-- Strict dispatch order demanded by the claim: strictly earlier virtual
time, or equal virtual time and strictly earlier insertion sequence. -/
def evLT (a b : ℕ × ℕ) : Prop := a.1 < b.1 ∨ (a.1 = b.1 ∧ a.2 < b.2)

/-- Pair every scheduled virtual time with its insertion sequence number,
starting from s: the events created by a sequence of Schedule calls. -/
def withSeq : ℕ → List ℕ → List (ℕ × ℕ)
  | _, [] => []
  | s, t :: ts => (t, s) :: withSeq (s + 1) ts

/-- Modelled from the spec: the event scheduler (the Simulator body is not
among the provided sources) keeps pending events ordered by the key
(virtual time, insertion sequence); Schedule inserts each new event at its
key position and Run repeatedly pops and dispatches the front, so for
events all scheduled before Run the dispatch order is the queue left by
the insertions. -/
def dispatchOrder (ts : List ℕ) : List (ℕ × ℕ) :=
  (withSeq 0 ts).foldl (fun q e => List.orderedInsert evLE e q) []

theorem foldl_insert_sorted :
    ∀ (l q : List (ℕ × ℕ)), List.Sorted evLE q →
      List.Sorted evLE (l.foldl (fun q e => List.orderedInsert evLE e q) q)
  | [], _, hq => hq
  | e :: rest, q, hq =>
    foldl_insert_sorted rest _ (List.Sorted.orderedInsert e q hq)

theorem foldl_insert_perm :
    ∀ (l q : List (ℕ × ℕ)),
      List.Perm (l.foldl (fun q e => List.orderedInsert evLE e q) q) (l ++ q)
  | [], q => List.Perm.refl q
  | e :: rest, q =>
    ((foldl_insert_perm rest _).trans
      ((List.Perm.append_left rest (List.perm_orderedInsert evLE e q)).trans
        List.perm_middle))

theorem withSeq_mem_le :
    ∀ (ts : List ℕ) (s : ℕ) (e : ℕ × ℕ), e ∈ withSeq s ts → s ≤ e.2 := by
  intro ts
  induction ts with
  | nil =>
    intro s e he
    cases he
  | cons t rest ih =>
    intro s e he
    rcases List.mem_cons.1 he with h | h
    · subst h
      exact le_refl s
    · have := ih (s + 1) e h
      omega

theorem withSeq_pairwise_ne (ts : List ℕ) :
    ∀ s : ℕ, List.Pairwise (fun a b : ℕ × ℕ => a.2 ≠ b.2) (withSeq s ts) := by
  induction ts with
  | nil =>
    intro s
    exact List.Pairwise.nil
  | cons t rest ih =>
    intro s
    refine List.Pairwise.cons ?_ (ih (s + 1))
    intro e he
    have := withSeq_mem_le rest (s + 1) e he
    show s ≠ e.2
    omega

/-- Claim C4: the scheduler dispatches exactly the scheduled events, in
non-decreasing virtual-time order with insertion order breaking ties
(every pair of dispatched events is related by evLT: strictly earlier
time, or equal time and strictly earlier insertion sequence); in
particular scheduling virtual times 5, 5, 3, 10 in that call order
dispatches insertion sequences 2, 0, 1, 3, i.e. the 3 first, then the two
5s in call order, then the 10. -/
theorem c4_scheduler_order (ts : List ℕ) :
    List.Perm (dispatchOrder ts) (withSeq 0 ts) ∧
    List.Pairwise evLT (dispatchOrder ts) ∧
    dispatchOrder [5, 5, 3, 10] = [(3, 2), (5, 0), (5, 1), (10, 3)] := by
  have hperm : List.Perm (dispatchOrder ts) (withSeq 0 ts) := by
    have h := foldl_insert_perm (withSeq 0 ts) []
    rw [List.append_nil] at h
    exact h
  have hsorted : List.Sorted evLE (dispatchOrder ts) :=
    foldl_insert_sorted (withSeq 0 ts) [] List.sorted_nil
  have hne : List.Pairwise (fun a b : ℕ × ℕ => a.2 ≠ b.2) (dispatchOrder ts) :=
    (hperm.pairwise_iff (fun h2 => Ne.symm h2)).2 (withSeq_pairwise_ne ts 0)
  refine ⟨hperm, ?_, by decide⟩
  refine (List.Pairwise.and hsorted hne).imp ?_
  intro a b hab
  rcases hab with ⟨hle, hne2⟩
  unfold evLE at hle
  unfold evLT
  omega

end NS3
